import Mathlib

set_option maxRecDepth 10000

/-!
A shallow embedding of the Fifth Forth engine (src/engine) in Lean 4.

Conventions of the embedding:
* C `cell_t` (a 64-bit signed machine word) is modelled as unbounded `Int`;
  none of the verified claims depends on wrap-around behaviour.
* The flat byte arena `vm->mem[]` is modelled as a function `Int → Int`
  giving the cell stored at a byte offset.  The engine only ever reads a
  cell at the offset it wrote it to (cell accesses are aligned and the
  claims under study touch no byte/cell aliasing), so cell granularity is
  faithful for them.
* The two stacks (which grow downward through fixed C arrays with
  predecrement push) are modelled as lists with the top at the head;
  the C stack-pointer depth `rdepth`/`depth` is the list length.
  Popping an empty stack is undefined behaviour in the C code (it reads
  past the array); the model returns 0 and leaves the state unchanged.
* `FILE*` handles and the nested include stack are modelled by the
  counter `inputDepth`; closing every nested handle is `inputDepth := 0`.
  Text printed to stderr/stdout is accumulated in `errOut` / `out`.
* Loops of the C code that walk data structures are given explicit fuel.
-/

/-- The C `sizeof(cell_t)` on the 64-bit host: 8 bytes. -/
def cellSize : Int := 8

/-- Identifiers for the C primitive functions of prims.c / io.c that the
claims exercise.  Each constructor corresponds to one `p_*` function. -/
inductive PrimOp where
  | lit | branch | zbranch | exitRt
  | doRt | qdoRt | loopRt | ploopRt | doesRt
  | addP | subP | mulP | divP | modP | divmodP
  | dupP | dropP | toR | rFrom
  | fetchP | storeP
  | byeP | baseP | decimalP | hexP | pnoDigit
  | dotP | noopP
deriving DecidableEq, Repr

/-- The `code` field of a dictionary entry: a C function pointer that is
either one of the four word handlers or a primitive. -/
inductive Handler where
  | prim (p : PrimOp)
  | docol | dovar | docon | dodoes
deriving DecidableEq, Repr

/-- Model of `dict_entry_t` of fifth.h.  `flags` is the byte
`F_IMMEDIATE(0x80) | F_HIDDEN(0x40) | namelength(0x3F)`. -/
structure DictEntry where
  link : Int
  flags : Nat
  name : String
  code : Handler
  param : Int
  does : Int
deriving DecidableEq, Repr

/-- A default entry standing for the garbage read by `vm->dict[i]` at an
out-of-range index (undefined behaviour in C; never reached by the
claims). -/
def defaultEntry : DictEntry :=
  { link := -1, flags := 0, name := "", code := .prim .noopP, param := 0, does := -1 }

/-- Model of `struct vm` of fifth.h, restricted to the fields the claims touch. -/
structure VM where
  dict : List DictEntry
  latest : Int
  mem : Int → Int
  here : Int
  dstack : List Int
  rstack : List Int
  ip : Int
  w : Int
  state : Int
  base : Int
  running : Bool
  tib : List Char
  tibPos : Nat
  inputDepth : Nat
  out : List String
  errOut : List String
  pno : List Char
  xtLit : Int
  xtBranch : Int
  xt0branch : Int
  xtExit : Int
  xtDoes : Int

/-- Array access `vm->dict[i]` (array access by index). -/
def entryOf (vm : VM) (i : Int) : DictEntry :=
  vm.dict.getD i.toNat defaultEntry

/-- Function `push` of fifth.h: predecrement and store, i.e. cons on the model. -/
def push (vm : VM) (v : Int) : VM := { vm with dstack := v :: vm.dstack }

/-- Function `pop` of fifth.h.  On the model the popped value of an
empty stack is the underflow default 0 and the stack stays empty. -/
def pop (vm : VM) : Int × VM :=
  (vm.dstack.headD 0, { vm with dstack := vm.dstack.tail })

/-- Function `rpush` of fifth.h. -/
def rpush (vm : VM) (v : Int) : VM := { vm with rstack := v :: vm.rstack }

/-- Function `rpop` of fifth.h. -/
def rpop (vm : VM) : Int × VM :=
  (vm.rstack.headD 0, { vm with rstack := vm.rstack.tail })

/-- Function `rtos` of fifth.h. -/
def rtos (vm : VM) : Int := vm.rstack.headD 0

/-- The update `*vm->sp = f(*vm->sp)`: the in-place update of the top data cell used
by primitives such as `p_add` (`*vm->sp += b`). -/
def updTos (vm : VM) (f : Int → Int) : VM :=
  { vm with dstack :=
      match vm.dstack with
      | [] => []
      | a :: rest => f a :: rest }

/-- Function `mem_fetch` of fifth.h. -/
def memFetch (vm : VM) (addr : Int) : Int := vm.mem addr

/-- Function `mem_store` of fifth.h. -/
def memStore (vm : VM) (addr v : Int) : VM :=
  { vm with mem := fun a => if a = addr then v else vm.mem a }

/-- Function `vm_align` of fifth.h: `(n + sizeof(cell_t) - 1) & ~(sizeof(cell_t)-1)`;
`~7` is `-8` in two-complement. -/
def vmAlign (n : Int) : Int := Int.land (n + 7) (-8)

/-- Function `vm_compile_cell` of fifth.h: store at HERE, bump HERE one cell. -/
def vmCompileCell (vm : VM) (v : Int) : VM :=
  { memStore vm vm.here v with here := vm.here + cellSize }

/-- Function `vm_fetch_ip` of fifth.h: read the cell at IP and advance IP one cell. -/
def fetchIp (vm : VM) : Int × VM :=
  (vm.mem vm.ip, { vm with ip := vm.ip + cellSize })

/-- Function `vm_abort` of vm.c: print a diagnostic, reset both stacks, leave
compile state, close all nested input sources. -/
def vmAbort (vm : VM) (msg : String) : VM :=
  { vm with errOut := vm.errOut ++ ["ABORT: " ++ msg],
            dstack := [], rstack := [],
            state := 0, inputDepth := 0 }

/-- Replace the entry `vm->dict[vm->latest]`. -/
def updateLatest (vm : VM) (f : DictEntry → DictEntry) : VM :=
  { vm with dict := vm.dict.set vm.latest.toNat (f (entryOf vm vm.latest)) }

/-- Dispatch of one primitive: the bodies of the corresponding `p_*`
C functions, in source order of their effects. -/
def execPrim (p : PrimOp) (vm : VM) : VM :=
  match p with
  | .lit =>           -- p_lit: push(vm, vm_fetch_ip(vm))
    let (v, vm) := fetchIp vm
    push vm v
  | .branch =>        -- p_branch: vm->ip = vm_fetch_ip(vm)
    let (d, vm) := fetchIp vm
    { vm with ip := d }
  | .zbranch =>       -- p_0branch
    let (d, vm) := fetchIp vm
    let (t, vm) := pop vm
    if t = 0 then { vm with ip := d } else vm
  | .exitRt =>        -- p_exit: vm->ip = rpop(vm)
    let (r, vm) := rpop vm
    { vm with ip := r }
  | .doRt =>          -- p_do_rt
    let (idx, vm) := pop vm
    let (lim, vm) := pop vm
    rpush (rpush vm lim) idx
  | .qdoRt =>         -- p_qdo_rt
    let (d, vm) := fetchIp vm
    let (idx, vm) := pop vm
    let (lim, vm) := pop vm
    if idx = lim then { vm with ip := d }
    else rpush (rpush vm lim) idx
  | .loopRt =>        -- p_loop_rt
    let (d, vm) := fetchIp vm
    let (i0, vm) := rpop vm
    let idx := i0 + 1
    let lim := rtos vm
    if idx = lim then (rpop vm).2
    else { rpush vm idx with ip := d }
  | .ploopRt =>       -- p_ploop_rt
    let (d, vm) := fetchIp vm
    let (step, vm) := pop vm
    let (oldIdx, vm) := rpop vm
    let newIdx := oldIdx + step
    let lim := rtos vm
    let oldDiff := oldIdx - lim
    let newDiff := newIdx - lim
    let crossed := Int.xor oldDiff newDiff < 0 ∧ Int.xor oldDiff step < 0
    if crossed ∨ newDiff = 0 then (rpop vm).2
    else { rpush vm newIdx with ip := d }
  | .doesRt =>        -- p_does_runtime
    let vm' := updateLatest vm (fun e => { e with code := .dodoes, does := vm.ip })
    let (r, vm') := rpop vm'
    { vm' with ip := r }
  | .addP =>          -- p_add
    let (b, vm) := pop vm
    updTos vm (· + b)
  | .subP =>          -- p_sub
    let (b, vm) := pop vm
    updTos vm (· - b)
  | .mulP =>          -- p_mul
    let (b, vm) := pop vm
    updTos vm (· * b)
  | .divP =>          -- p_div (C / truncates toward zero: Int.tdiv)
    let (b, vm) := pop vm
    if b ≠ 0 then updTos vm (fun a => Int.tdiv a b)
    else vmAbort vm "division by zero"
  | .modP =>          -- p_mod (C % pairs with truncating /: Int.tmod)
    let (b, vm) := pop vm
    if b ≠ 0 then updTos vm (fun a => Int.tmod a b)
    else vmAbort vm "division by zero"
  | .divmodP =>       -- p_divmod
    let (b, vm) := pop vm
    let (a, vm) := pop vm
    if b ≠ 0 then push (push vm (Int.tmod a b)) (Int.tdiv a b)
    else vmAbort vm "division by zero"
  | .dupP =>          -- p_dup
    push vm (vm.dstack.headD 0)
  | .dropP =>         -- p_drop
    (pop vm).2
  | .toR =>           -- p_to_r
    let (v, vm) := pop vm
    rpush vm v
  | .rFrom =>         -- p_r_from
    let (v, vm) := rpop vm
    push vm v
  | .fetchP =>        -- p_fetch: *vm->sp = mem_fetch(vm, *vm->sp)
    updTos vm (fun a => vm.mem a)
  | .storeP =>        -- p_store
    let (addr, vm) := pop vm
    let (v, vm) := pop vm
    memStore vm addr v
  | .byeP =>          -- p_bye (io.c): vm->running = false
    { vm with running := false }
  | .baseP =>         -- p_base (io.c): mem_store(vm, 8, vm->base); push 8
    let vm := memStore vm 8 vm.base
    push vm 8
  | .decimalP =>      -- p_decimal (io.c)
    { vm with base := 10 }
  | .hexP =>          -- p_hex (io.c)
    { vm with base := 16 }
  | .pnoDigit =>      -- p_pno_digit: one digit in the current base into pno_buf
    let (d, vm) := pop vm
    let ud := d.toNat
    let rem := ud % vm.base.toNat
    let vm := push vm (ud / vm.base.toNat : Nat)
    let c := if rem < 10 then Char.ofNat ('0'.toNat + rem)
             else Char.ofNat ('a'.toNat + rem - 10)
    { vm with pno := c :: vm.pno }
  | .dotP =>          -- p_dot: print the number and a space
    let (n, vm) := pop vm
    { vm with out := vm.out ++ [s!"{n} "] }
  | .noopP => vm

/-- Dispatch on the `code` field of the current word `vm->w`: the word
handlers `docol`, `dovar`, `docon`, `dodoes` of vm.c, or a primitive. -/
def execHandler (vm : VM) (h : Handler) : VM :=
  match h with
  | .docol => { vm with rstack := vm.ip :: vm.rstack, ip := (entryOf vm vm.w).param }
  | .dovar => push vm (entryOf vm vm.w).param
  | .docon => push vm (entryOf vm vm.w).param
  | .dodoes =>
    let vm' := push vm (entryOf vm vm.w).param
    { vm' with rstack := vm'.ip :: vm'.rstack, ip := (entryOf vm' vm'.w).does }
  | .prim p => execPrim p vm

/-- Fetch-and-advance of the inner interpreter loop body (vm.c lines
53-54): read exactly one cell from the arena at IP into `w` and advance
IP by one cell. -/
def advanceIp (vm : VM) : VM :=
  { vm with w := vm.mem vm.ip, ip := vm.ip + cellSize }

/-- One iteration of the `vm_run` loop body: fetch one cell at IP,
advance IP one cell, then dispatch that cell as an XT. -/
def vmStep (vm : VM) : VM :=
  let vm' := advanceIp vm
  execHandler vm' (entryOf vm' vm'.w).code

/-- Function `vm_run` of vm.c with explicit fuel.  `rbase` is the depth
of the return stack captured at entry (`rsp_base`); the C guard
`vm->running && vm->rsp <= rsp_base` reads, on the descending C stack,
as: still running and the current depth is at least `rbase`. -/
def vmRun : Nat → Nat → VM → VM
  | 0, _, vm => vm
  | fuel + 1, rbase, vm =>
    if vm.running = true ∧ rbase ≤ vm.rstack.length then
      vmRun fuel rbase (vmStep vm)
    else vm

/-- Function `vm_execute` of vm.c: set `w`, run colon-like words through
the inner interpreter until the matching exit, call primitives directly. -/
def vmExecute (fuel : Nat) (vm : VM) (xt : Int) : VM :=
  let vm' := { vm with w := xt }
  match (entryOf vm' xt).code with
  | .docol =>
    let vm'' := execHandler vm' .docol
    vmRun fuel vm''.rstack.length vm''
  | .dodoes =>
    let vm'' := execHandler vm' .dodoes
    vmRun fuel vm''.rstack.length vm''
  | h => execHandler vm' h

/-- The whitespace test of `vm_word` (vm.c line 110): `tib[pos] <= ' '`. -/
def isWSChar (c : Char) : Bool := c.toNat ≤ 32

/-- Function `vm_word` of vm.c: skip leading whitespace, then read word
characters, stopping at whitespace, end of TIB, or `NAME_MAX_LEN` (31)
characters. -/
def vmWord (vm : VM) : String × VM :=
  let rest := vm.tib.drop vm.tibPos
  let ws := rest.takeWhile isWSChar
  let afterWS := rest.dropWhile isWSChar
  let word := (afterWS.takeWhile (fun c => !(isWSChar c))).take 31
  (String.mk word, { vm with tibPos := vm.tibPos + ws.length + word.length })

/-- Case-insensitive comparison of the first `n` characters, as
`strncasecmp(a, b, n) == 0` behaves on the NUL-free names the engine
stores (every construction site truncates names to 31 characters and
keeps the stored length equal to the length field of `flags`). -/
def strncaseEq (a b : String) (n : Nat) : Bool :=
  (a.data.take n).map Char.toLower == (b.data.take n).map Char.toLower

/-- The loop of `vm_find` (vm.c lines 63-69): walk the `link` chain from
an index, skipping HIDDEN entries and entries of the wrong stored length.
Fuel bounds the walk; the chains the engine builds strictly decrease, so
`vm.dict.length + 1` steps always suffice for them. -/
def vmFindAux (vm : VM) (nm : String) : Nat → Int → Option Int
  | 0, _ => none
  | fuel + 1, i =>
    if i < 0 then none
    else
      let e := entryOf vm i
      if e.flags &&& 0x40 ≠ 0 then vmFindAux vm nm fuel e.link
      else if e.flags &&& 0x3F ≠ nm.length then vmFindAux vm nm fuel e.link
      else if strncaseEq e.name nm nm.length then some i
      else vmFindAux vm nm fuel e.link

/-- Function `vm_find` of vm.c: latest-first lookup along the link chain. -/
def vmFind (vm : VM) (nm : String) : Option Int :=
  vmFindAux vm nm (vm.dict.length + 1) vm.latest

/-- The per-character digit classification of `vm_try_number`
(vm.c lines 161-165). -/
def digitVal (c : Char) : Option Nat :=
  if '0' ≤ c ∧ c ≤ '9' then some (c.toNat - '0'.toNat)
  else if 'a' ≤ c ∧ c ≤ 'z' then some (c.toNat - 'a'.toNat + 10)
  else if 'A' ≤ c ∧ c ≤ 'Z' then some (c.toNat - 'A'.toNat + 10)
  else none

/-- The digit-accumulation loop of `vm_try_number` (vm.c lines 159-169). -/
def digitsLoop (base : Int) : Int → List Char → Option Int
  | acc, [] => some acc
  | acc, c :: rest =>
    match digitVal c with
    | none => none
    | some d =>
      if (d : Int) ≥ base then none
      else digitsLoop base (acc * base + (d : Int)) rest

/-- Function `vm_try_number` of vm.c on an explicit base (the C function
reads `vm->base` once into a local): optional leading sign, optional base
prefix `$` (hex), `#` (decimal), `%` (binary) or `0x`/`0X` (hex, only
with at least one following character), then digits of the base. -/
def tryNumberCore (base0 : Int) (s : List Char) : Option Int :=
  if s.length = 0 then none
  else
    let signStripped : Bool × List Char :=
      match s with
      | '-' :: rest => if s.length > 1 then (true, rest) else (false, s)
      | '+' :: rest => if s.length > 1 then (false, rest) else (false, s)
      | _ => (false, s)
    let neg := signStripped.1
    let s1 := signStripped.2
    let prefixStripped : Int × List Char :=
      match s1 with
      | '$' :: r => (16, r)
      | '#' :: r => (10, r)
      | '%' :: r => (2, r)
      | '0' :: 'x' :: r => if r.length > 0 then (16, r) else (base0, s1)
      | '0' :: 'X' :: r => if r.length > 0 then (16, r) else (base0, s1)
      | _ => (base0, s1)
    let b := prefixStripped.1
    let s2 := prefixStripped.2
    if s2.length = 0 then none
    else
      match digitsLoop b 0 s2 with
      | none => none
      | some v => some (if neg then -v else v)

/-- Function `vm_try_number` of vm.c. -/
def vmTryNumber (vm : VM) (s : String) : Option Int :=
  tryNumberCore vm.base s.data

/-- Function `vm_interpret_tib` of vm.c: the outer interpreter loop.
`tokFuel` bounds the number of tokens, `execFuel` is the inner
interpreter fuel.  After an undefined word the C function aborts and
returns, ending the loop. -/
def vmInterpretTib : Nat → Nat → VM → VM
  | 0, _, vm => vm
  | tokFuel + 1, execFuel, vm =>
    if vm.running = true then
      let (wd, vm1) := vmWord vm
      if wd.length = 0 then vm1
      else
        match vmFind vm1 wd with
        | some xt =>
          if vm1.state ≠ 0 ∧ (entryOf vm1 xt).flags &&& 0x80 = 0 then
            vmInterpretTib tokFuel execFuel (vmCompileCell vm1 xt)
          else
            vmInterpretTib tokFuel execFuel (vmExecute execFuel vm1 xt)
        | none =>
          match vmTryNumber vm1 wd with
          | some n =>
            if vm1.state ≠ 0 then
              vmInterpretTib tokFuel execFuel
                (vmCompileCell (vmCompileCell vm1 vm1.xtLit) n)
            else
              vmInterpretTib tokFuel execFuel (push vm1 n)
          | none =>
            vmAbort { vm1 with errOut := vm1.errOut ++ [wd ++ " ?"] }
              "undefined word"
    else vm

/-- Function `p_colon` of prims.c: parse a name, append a HIDDEN entry
with the colon handler and param = aligned HERE, enter compile state. -/
def vmColon (vm : VM) : VM :=
  let parsed := vmWord vm
  let name := parsed.1
  let vm1 := parsed.2
  if name.length = 0 then vmAbort vm1 ": requires a name"
  else
    let here' := vmAlign vm1.here
    let e : DictEntry :=
      { link := vm1.latest, flags := name.length ||| 0x40, name := name,
        code := .docol, param := here', does := -1 }
    { vm1 with dict := vm1.dict ++ [e], latest := (vm1.dict.length : Int),
               here := here', state := -1 }

/-- Function `p_semicolon` of prims.c: compile the exit XT, clear the
HIDDEN bit of the latest entry (`flags &= ~F_HIDDEN`, i.e. `&&& 0xBF` on
the byte), leave compile state. -/
def vmSemicolon (vm : VM) : VM :=
  let vm1 := vmCompileCell vm vm.xtExit
  let vm2 := updateLatest vm1 (fun e => { e with flags := e.flags &&& 0xBF })
  { vm2 with state := 0 }

/-- Function `p_create` of prims.c: parse a name, append a visible entry
with the variable handler and param = aligned HERE. -/
def vmCreate (vm : VM) : VM :=
  let parsed := vmWord vm
  let name := parsed.1
  let vm1 := parsed.2
  if name.length = 0 then vmAbort vm1 "CREATE requires a name"
  else
    let here' := vmAlign vm1.here
    let e : DictEntry :=
      { link := vm1.latest, flags := name.length, name := name,
        code := .dovar, param := here', does := -1 }
    { vm1 with dict := vm1.dict ++ [e], latest := (vm1.dict.length : Int),
               here := here' }

/-- Name sanitization of `codegen_word` (tcc.c lines 160-171): keep at
most 60 characters, mapping anything but ASCII letters, digits and
underscore to an underscore. -/
def sanitizeChar (c : Char) : Char :=
  if ('a' ≤ c ∧ c ≤ 'z') ∨ ('A' ≤ c ∧ c ≤ 'Z') ∨ ('0' ≤ c ∧ c ≤ '9') ∨ c = '_'
  then c else '_'

/-- Sanitized C identifier for a word name (tcc.c). -/
def sanitizeName (nm : String) : String :=
  String.mk ((nm.data.take 60).map sanitizeChar)

/-- Translation of one recognized primitive name to its helper call in
the generated C, following the `strcmp` chain of `codegen_word`
(tcc.c lines 199-268).  Returns `none` for names not in the chain. -/
def primHelperLine (nm : String) : Option String :=
  if nm = "+" then some "    f_add();\n"
  else if nm = "-" then some "    f_sub();\n"
  else if nm = "*" then some "    f_mul();\n"
  else if nm = "/" then some "    f_div();\n"
  else if nm = "mod" then some "    f_mod();\n"
  else if nm = "dup" then some "    f_dup();\n"
  else if nm = "drop" then some "    f_drop();\n"
  else if nm = "swap" then some "    f_swap();\n"
  else if nm = "over" then some "    f_over();\n"
  else if nm = "rot" then some "    f_rot();\n"
  else if nm = "." then some "    f_dot();\n"
  else if nm = "cr" then some "    f_cr();\n"
  else if nm = "emit" then some "    f_emit();\n"
  else if nm = "=" then some "    f_eq();\n"
  else if nm = "<>" then some "    f_ne();\n"
  else if nm = "<" then some "    f_lt();\n"
  else if nm = ">" then some "    f_gt();\n"
  else if nm = "<=" then some "    f_le();\n"
  else if nm = ">=" then some "    f_ge();\n"
  else if nm = "0=" then some "    f_0eq();\n"
  else if nm = "0<" then some "    f_0lt();\n"
  else if nm = "0>" then some "    f_0gt();\n"
  else if nm = "and" then some "    f_and();\n"
  else if nm = "or" then some "    f_or();\n"
  else if nm = "xor" then some "    f_xor();\n"
  else if nm = "invert" then some "    f_invert();\n"
  else if nm = "negate" then some "    f_neg();\n"
  else if nm = "abs" then some "    f_abs();\n"
  else if nm = "@" then some "    f_fetch();\n"
  else if nm = "!" then some "    f_store();\n"
  else if nm = "c@" then some "    f_cfetch();\n"
  else if nm = "c!" then some "    f_cstore();\n"
  else if nm = ">r" then some "    f_tor();\n"
  else if nm = "r>" then some "    f_fromr();\n"
  else if nm = "r@" then some "    f_rfetch();\n"
  else none

/-- The body walk of `codegen_word` (tcc.c lines 177-287): read cells in
order from the compiled body, translating each token; the exit XT ends
the walk.  Inline cells of `(lit)`, `(branch)`, `(0branch)` are consumed;
the branch label number is computed as the position after the inline
cell plus the stored cell (`(long)(ip + offset)` in the C). -/
def codegenBody (vm : VM) : Nat → Int → List String
  | 0, _ => []
  | fuel + 1, ip0 =>
    let subXt := vm.mem ip0
    let ip := ip0 + cellSize
    let sub := entryOf vm subXt
    if subXt = vm.xtExit then []
    else if subXt = vm.xtLit then
      let v := vm.mem ip
      s!"    PUSH({v});\n" :: codegenBody vm fuel (ip + cellSize)
    else if subXt = vm.xtBranch then
      let off := vm.mem ip
      let ip2 := ip + cellSize
      s!"    goto L{ip2 + off};\n" :: codegenBody vm fuel ip2
    else if subXt = vm.xt0branch then
      let off := vm.mem ip
      let ip2 := ip + cellSize
      s!"    if (POP() == 0) goto L{ip2 + off};\n" :: codegenBody vm fuel ip2
    else
      match primHelperLine sub.name with
      | some line => line :: codegenBody vm fuel ip
      | none =>
        if sub.code = .docol then
          s!"    word_{sanitizeName sub.name}();\n" :: codegenBody vm fuel ip
        else
          s!"    /* TODO: {sub.name} */\n" :: codegenBody vm fuel ip

/-- Function `codegen_word` of tcc.c: emit the C function for one
dictionary entry (body only for colon definitions). -/
def codegenWord (vm : VM) (fuel : Nat) (xt : Int) : List String :=
  let e := entryOf vm xt
  let cName := sanitizeName e.name
  let bodyLines := if e.code = .docol then codegenBody vm fuel e.param else []
  s!"static void word_{cName}(void) \x7b\n" :: (bodyLines ++ ["\x7d\n\n"])

/-- A helper to build a primitive dictionary entry as `vm_add_prim`
does: flags byte is the name length (no IMMEDIATE, no HIDDEN). -/
def primEntry (lnk : Int) (nm : String) (p : PrimOp) : DictEntry :=
  { link := lnk, flags := nm.length, name := nm, code := .prim p,
    param := 0, does := -1 }

/-- A helper to build a colon-definition entry. -/
def colonEntry (lnk : Int) (nm : String) (body : Int) : DictEntry :=
  { link := lnk, flags := nm.length, name := nm, code := .docol,
    param := body, does := -1 }

/-- A concrete dictionary in the layout `prims_init` produces: runtime
helper XTs first (so their XTs are low integers), then user-visible
primitives, then the colon definitions of the example programs. -/
def dictEx : List DictEntry :=
  [ primEntry (-1) "(lit)" .lit,          -- xt 0
    primEntry 0 "(branch)" .branch,       -- xt 1
    primEntry 1 "(0branch)" .zbranch,     -- xt 2
    primEntry 2 "(exit)" .exitRt,         -- xt 3
    primEntry 3 "(do)" .doRt,             -- xt 4
    primEntry 4 "(?do)" .qdoRt,           -- xt 5
    primEntry 5 "(loop)" .loopRt,         -- xt 6
    primEntry 6 "(+loop)" .ploopRt,       -- xt 7
    primEntry 7 "(does>)" .doesRt,        -- xt 8
    primEntry 8 "+" .addP,                -- xt 9
    primEntry 9 "." .dotP,                -- xt 10
    primEntry 10 ">r" .toR,               -- xt 11
    primEntry 11 "bye" .byeP,             -- xt 12
    colonEntry 12 "w" 64,                 -- xt 13 : U L (do) 1 + (loop) ;
    colonEntry 13 "w2" 200,               -- xt 14 : U L (?do) 1 + (loop) ;
    colonEntry 14 "b" 400,                -- xt 15 : bye ;
    colonEntry 15 "t" 500,                -- xt 16 : if 1 . then ;
    colonEntry 16 "g" 560 ]               -- xt 17 : + ;

/-- A concrete arena holding the compiled bodies of the example colon
definitions `w`, `w2`, `b` and `t` of `dictEx`. -/
def memEx : Int → Int := fun a =>
  -- body of w at 64:   (do) (lit) 1 + (loop) 72 (exit)
  if a = 64 then 4 else if a = 72 then 0 else if a = 80 then 1
  else if a = 88 then 9 else if a = 96 then 6 else if a = 104 then 72
  else if a = 112 then 3
  -- body of w2 at 200: (?do) 256 (lit) 1 + (loop) 216 (exit)
  else if a = 200 then 5 else if a = 208 then 256 else if a = 216 then 0
  else if a = 224 then 1 else if a = 232 then 9 else if a = 240 then 6
  else if a = 248 then 216 else if a = 256 then 3
  -- body of b at 400:  bye (exit)
  else if a = 400 then 12 else if a = 408 then 3
  -- body of t at 500:  (0branch) 540 (lit) 1 . (exit)
  else if a = 500 then 2 else if a = 508 then 540 else if a = 516 then 0
  else if a = 524 then 1 else if a = 532 then 10 else if a = 540 then 3
  -- body of g at 560:  + (exit)
  else if a = 560 then 9 else if a = 568 then 3
  else 0

/-- A concrete VM over `dictEx` and `memEx`, parametrized by the current
word, IP and the two stacks. -/
def mkVM (w ip : Int) (rs ds : List Int) : VM :=
  { dict := dictEx, latest := 17, mem := memEx, here := 600,
    dstack := ds, rstack := rs, ip := ip, w := w, state := 0, base := 10,
    running := true, tib := [], tibPos := 0, inputDepth := 0,
    out := [], errOut := [], pno := [],
    xtLit := 0, xtBranch := 1, xt0branch := 2, xtExit := 3, xtDoes := 8 }


/-! Generic facts about the inner interpreter loop. -/

theorem vmRun_succ_of_guard (fuel rbase : Nat) (vm : VM)
    (h1 : vm.running = true) (h2 : rbase ≤ vm.rstack.length) :
    vmRun (fuel + 1) rbase vm = vmRun fuel rbase (vmStep vm) := by
  simp [vmRun, h1, h2]

theorem vmRun_stop (fuel rbase : Nat) (vm : VM)
    (h : ¬ (vm.running = true ∧ rbase ≤ vm.rstack.length)) :
    vmRun fuel rbase vm = vm := by
  cases fuel with
  | zero => rfl
  | succ n => simp [vmRun, h]

theorem vmRun_add (a b rbase : Nat) (vm : VM) :
    vmRun (a + b) rbase vm = vmRun b rbase (vmRun a rbase vm) := by
  induction a generalizing vm with
  | zero => rw [Nat.zero_add]; rfl
  | succ n ih =>
    by_cases h : vm.running = true ∧ rbase ≤ vm.rstack.length
    · have e : n + 1 + b = (n + b) + 1 := by omega
      rw [e, vmRun_succ_of_guard _ _ _ h.1 h.2,
          vmRun_succ_of_guard _ _ _ h.1 h.2, ih]
    · rw [vmRun_stop _ _ _ h, vmRun_stop _ _ _ h, vmRun_stop _ _ _ h]

/-! Single-step reductions of the example programs over `mkVM`.  Each is
definitional: the kernel evaluates the fetch at the concrete address and
the dispatch through `dictEx`. -/

theorem stepDo (w i lim sip : Int) (ds : List Int) :
    vmStep (mkVM w 64 [sip] (i :: lim :: ds)) = mkVM 4 72 [i, lim, sip] ds := rfl

theorem stepLit (w i U sip acc : Int) (ds : List Int) :
    vmStep (mkVM w 72 [i, U, sip] (acc :: ds)) =
      mkVM 0 88 [i, U, sip] (1 :: acc :: ds) := rfl

theorem stepAdd (w i U sip acc : Int) (ds : List Int) :
    vmStep (mkVM w 88 [i, U, sip] (1 :: acc :: ds)) =
      mkVM 9 96 [i, U, sip] ((acc + 1) :: ds) := rfl

theorem stepLoop (w i U sip : Int) (ds : List Int) :
    vmStep (mkVM w 96 [i, U, sip] ds) =
      if i + 1 = U then mkVM 6 112 [sip] ds
      else mkVM 6 72 [i + 1, U, sip] ds := rfl

theorem stepExitW (w sip : Int) (ds : List Int) :
    vmStep (mkVM w 112 [sip] ds) = mkVM 3 sip [] ds := rfl

theorem mkVM_running (w ip : Int) (rs ds : List Int) :
    (mkVM w ip rs ds).running = true := rfl

theorem mkVM_rstack (w ip : Int) (rs ds : List Int) :
    (mkVM w ip rs ds).rstack = rs := rfl

/-- The iterations of the compiled `(do) (lit) 1 + (loop)` body of `w`:
starting at the body head with loop index `i`, limit `U = i + (n+1)` and
accumulator `acc`, the remaining `n + 1` iterations and the final
`(exit)` take `3*(n+1) + 1` steps and add `n + 1` to the accumulator. -/
theorem c5Aux : ∀ (n : Nat) (i U sip acc w : Int), i + (n + 1 : Nat) = U →
    vmRun (3 * (n + 1) + 1) 1 (mkVM w 72 [i, U, sip] [acc]) =
      mkVM 3 sip [] [acc + (n + 1 : Nat)] := by
  intro n
  induction n with
  | zero =>
    intro i U sip acc w hU
    have h1 : i + 1 = U := by push_cast at hU; omega
    rw [show 3 * (0 + 1) + 1 = 4 from rfl]
    rw [vmRun_succ_of_guard 3 1 _ (mkVM_running ..) (by rw [mkVM_rstack]; simp),
        stepLit]
    rw [vmRun_succ_of_guard 2 1 _ (mkVM_running ..) (by rw [mkVM_rstack]; simp),
        stepAdd]
    rw [vmRun_succ_of_guard 1 1 _ (mkVM_running ..) (by rw [mkVM_rstack]; simp),
        stepLoop, if_pos h1]
    rw [vmRun_succ_of_guard 0 1 _ (mkVM_running ..) (by rw [mkVM_rstack]; simp),
        stepExitW]
    rfl
  | succ m ih =>
    intro i U sip acc w hU
    have hne : i + 1 ≠ U := by push_cast at hU ⊢; omega
    have e : 3 * (m + 1 + 1) + 1 = ((3 * (m + 1) + 1) + 2) + 1 := by omega
    rw [e]
    rw [vmRun_succ_of_guard _ 1 _ (mkVM_running ..) (by rw [mkVM_rstack]; simp),
        stepLit]
    rw [vmRun_succ_of_guard _ 1 _ (mkVM_running ..) (by rw [mkVM_rstack]; simp),
        stepAdd]
    rw [vmRun_succ_of_guard _ 1 _ (mkVM_running ..) (by rw [mkVM_rstack]; simp),
        stepLoop, if_neg hne]
    rw [ih (i + 1) U sip (acc + 1) 6 (by push_cast at hU ⊢; omega)]
    congr 2
    push_cast
    ring

theorem mkVM_dstack (w ip : Int) (rs ds : List Int) :
    (mkVM w ip rs ds).dstack = ds := rfl

theorem stepQdo (w idx lim sip : Int) (ds : List Int) :
    vmStep (mkVM w 200 [sip] (idx :: lim :: ds)) =
      if idx = lim then mkVM 5 256 [sip] ds
      else mkVM 5 216 [idx, lim, sip] ds := rfl

theorem stepExit256 (w sip : Int) (ds : List Int) :
    vmStep (mkVM w 256 [sip] ds) = mkVM 3 sip [] ds := rfl

/-- C5: executing the compiled `do`…`loop` definition `w` (body
`(do) (lit) 1 + (loop)`): with limit `U` and initial index `L` on the
data stack under an accumulator that the loop body increments once per
execution, the run leaves accumulator `U − L`, i.e. the body ran exactly
`U − L` times, and ends with the return stack restored; executing the
compiled `?do`…`loop` definition `w2` with equal limit and index leaves
the accumulator at 0: the body ran zero times. -/
theorem c5_loop_counts (L U : Int) (h : L < U) :
    ((vmExecute (3 * (U - L).toNat + 2) (mkVM 13 0 [] [L, U, 0]) 13).dstack = [U - L] ∧
     (vmExecute (3 * (U - L).toNat + 2) (mkVM 13 0 [] [L, U, 0]) 13).rstack = [] ∧
     (vmExecute (3 * (U - L).toNat + 2) (mkVM 13 0 [] [L, U, 0]) 13).running = true) ∧
    ∀ L' : Int,
      (vmExecute 2 (mkVM 14 0 [] [L', L', 0]) 14).dstack = [0] ∧
      (vmExecute 2 (mkVM 14 0 [] [L', L', 0]) 14).rstack = [] := by
  constructor
  · obtain ⟨m, hm⟩ : ∃ m : Nat, (U - L).toNat = m + 1 :=
      ⟨(U - L).toNat - 1, by omega⟩
    have hrun : vmExecute (3 * (U - L).toNat + 2) (mkVM 13 0 [] [L, U, 0]) 13 =
        vmRun (3 * (U - L).toNat + 2) 1 (mkVM 13 64 [0] [L, U, 0]) := rfl
    rw [hrun, hm, show 3 * (m + 1) + 2 = (3 * (m + 1) + 1) + 1 from rfl]
    rw [vmRun_succ_of_guard _ 1 _ (mkVM_running ..) (by rw [mkVM_rstack]; simp),
        stepDo]
    rw [c5Aux m L U 0 0 4 (by omega)]
    refine ⟨?_, rfl, rfl⟩
    rw [mkVM_dstack]
    congr 1
    omega
  · intro L'
    have hrun : vmExecute 2 (mkVM 14 0 [] [L', L', 0]) 14 =
        vmRun 2 1 (mkVM 14 200 [0] [L', L', 0]) := rfl
    rw [hrun]
    rw [vmRun_succ_of_guard 1 1 _ (mkVM_running ..) (by rw [mkVM_rstack]; simp),
        stepQdo, if_pos rfl]
    rw [vmRun_succ_of_guard 0 1 _ (mkVM_running ..) (by rw [mkVM_rstack]; simp),
        stepExit256]
    exact ⟨rfl, rfl⟩

/-- Witness for `c5_loop_counts` at `L = 0`, `U = 3`. -/
theorem c5_loop_counts_witness :
    (vmExecute (3 * ((3 : Int) - 0).toNat + 2) (mkVM 13 0 [] [0, 3, 0]) 13).dstack =
      [(3 : Int) - 0] ∧
    (vmExecute 2 (mkVM 14 0 [] [7, 7, 0]) 14).dstack = [0] :=
  ⟨(c5_loop_counts 0 3 (by decide)).1.1, ((c5_loop_counts 0 3 (by decide)).2 7).1⟩

/-- On unbounded integers (as on a two-complement machine word), the
exclusive-or of two values is negative exactly when their sign bits
differ. -/
theorem int_xor_neg_iff (a b : Int) : Int.xor a b < 0 ↔ ((a < 0) ≠ (b < 0)) := by
  cases a <;> cases b <;>
    simp [Int.xor, Int.negSucc_lt_zero, Int.ofNat_nonneg, not_lt.mpr]

/-- C4: the `(+loop)` runtime with step `s` on the data stack and index
`i`, limit `L` on the return stack terminates (pops the limit and falls
through past the inline cell) exactly when the new index `i + s` equals
`L` or the addition crossed the limit boundary, where "the sign of `x`
differs from the sign of `y`" reads, as in the two-complement test
`(x ^ y) < 0` of the source, as: exactly one of the two is negative.
Otherwise `i + s` is pushed back and IP is set to the inline
back-reference. -/
theorem c4_ploop_boundary (vm : VM) (s i L : Int) (ds rs : List Int)
    (hs : vm.dstack = s :: ds) (hr : vm.rstack = i :: L :: rs) :
    ((execPrim .ploopRt vm).rstack = rs ↔
      (i + s = L ∨ (((i - L < 0) ≠ (i + s - L < 0)) ∧ ((i - L < 0) ≠ (s < 0))))) ∧
    ((i + s = L ∨ (((i - L < 0) ≠ (i + s - L < 0)) ∧ ((i - L < 0) ≠ (s < 0)))) →
      (execPrim .ploopRt vm).rstack = rs ∧
      (execPrim .ploopRt vm).ip = vm.ip + cellSize) ∧
    (¬ (i + s = L ∨ (((i - L < 0) ≠ (i + s - L < 0)) ∧ ((i - L < 0) ≠ (s < 0)))) →
      (execPrim .ploopRt vm).rstack = (i + s) :: L :: rs ∧
      (execPrim .ploopRt vm).ip = vm.mem vm.ip) := by
  have hiff : ((Int.xor (i - L) (i + s - L) < 0 ∧ Int.xor (i - L) s < 0) ∨
      i + s - L = 0) ↔
      (i + s = L ∨ (((i - L < 0) ≠ (i + s - L < 0)) ∧ ((i - L < 0) ≠ (s < 0)))) := by
    rw [int_xor_neg_iff, int_xor_neg_iff]
    constructor
    · rintro (⟨h1, h2⟩ | h0)
      · exact Or.inr ⟨h1, h2⟩
      · exact Or.inl (by omega)
    · rintro (h0 | ⟨h1, h2⟩)
      · exact Or.inr (by omega)
      · exact Or.inl ⟨h1, h2⟩
  obtain ⟨dc, lt, mem, hh, dsk, rsk, ip, w, st, bs, run, tb, tp, idp, out, err,
    pn, xl, xb, x0, xe, xd⟩ := vm
  dsimp only at hs hr ⊢
  subst hs
  subst hr
  have key : execPrim .ploopRt
      (VM.mk dc lt mem hh (s :: ds) (i :: L :: rs) ip w st bs run tb tp idp out
        err pn xl xb x0 xe xd) =
      if (Int.xor (i - L) (i + s - L) < 0 ∧ Int.xor (i - L) s < 0) ∨
          i + s - L = 0 then
        VM.mk dc lt mem hh ds rs (ip + cellSize) w st bs run tb tp idp out
          err pn xl xb x0 xe xd
      else
        VM.mk dc lt mem hh ds ((i + s) :: L :: rs) (mem ip) w st bs run tb tp
          idp out err pn xl xb x0 xe xd := rfl
  rw [key]
  by_cases hc : (Int.xor (i - L) (i + s - L) < 0 ∧ Int.xor (i - L) s < 0) ∨
      i + s - L = 0
  · rw [if_pos hc]
    have hcc := hiff.mp hc
    exact ⟨⟨fun _ => hcc, fun _ => rfl⟩, fun _ => ⟨rfl, rfl⟩,
      fun hn => absurd hcc hn⟩
  · rw [if_neg hc]
    have hcc := (not_iff_not.mpr hiff).mp hc
    refine ⟨⟨fun hEq => ?_, fun hcl => absurd hcl hcc⟩,
      fun hcl => absurd hcl hcc, fun _ => ⟨rfl, rfl⟩⟩
    have := congrArg List.length hEq
    simp at this
    omega

/-- Witness for `c4_ploop_boundary`: index 2, limit 10, step 1 does not
terminate the loop; the new index 3 goes back to the return stack. -/
theorem c4_ploop_boundary_witness :
    (execPrim .ploopRt (mkVM 7 0 [2, 10] [1])).rstack = [3, 10] :=
  (((c4_ploop_boundary (mkVM 7 0 [2, 10] [1]) 1 2 10 [] [] rfl rfl).2.2)
    (by decide)).1

/-- C1 (amended): every iteration of the `vm_run` loop reads exactly one
cell from the arena at IP into `w` and advances IP by one cell
(`advanceIp`) before dispatching that cell as an XT; the loop keeps
stepping while the running flag is set and the return-stack depth is at
least the depth saved at entry, and it returns the state unchanged as
soon as the running flag is cleared or the return-stack pointer rises
above the saved value. -/
theorem c1_inner_loop :
    (∀ (fuel rbase : Nat) (vm : VM), vm.running = true →
      rbase ≤ vm.rstack.length →
      vmRun (fuel + 1) rbase vm = vmRun fuel rbase (vmStep vm)) ∧
    (∀ (fuel rbase : Nat) (vm : VM),
      ¬ (vm.running = true ∧ rbase ≤ vm.rstack.length) →
      vmRun fuel rbase vm = vm) ∧
    (∀ vm : VM,
      vmStep vm = execHandler (advanceIp vm) (entryOf vm (vm.mem vm.ip)).code ∧
      (advanceIp vm).ip = vm.ip + cellSize ∧
      (advanceIp vm).w = vm.mem vm.ip) :=
  ⟨vmRun_succ_of_guard, vmRun_stop, fun _ => ⟨rfl, rfl, rfl⟩⟩

/-- Witness for `c1_inner_loop` at a concrete running state. -/
theorem c1_inner_loop_witness :
    vmRun 1 1 (mkVM 13 64 [0] [2, 5, 0]) =
      vmRun 0 1 (vmStep (mkVM 13 64 [0] [2, 5, 0])) :=
  c1_inner_loop.1 0 1 (mkVM 13 64 [0] [2, 5, 0]) rfl (by decide)

/-- Counterexample to C1 as stated: executing the colon definition `b`
(body `bye (exit)`) starts the inner interpreter with saved return-stack
depth 1; after one step the loop has terminated for good — more fuel
changes nothing — yet the final return-stack depth is still 1, so the
return-stack pointer never rose above the value saved at entry.  The
loop stopped because `bye` cleared the running flag, not because the
matching exit popped. -/
theorem c1_counterexample :
    (vmExecute 100 (mkVM 15 0 [] []) 15).running = false ∧
    (vmExecute 100 (mkVM 15 0 [] []) 15).rstack.length = 1 ∧
    vmExecute 100 (mkVM 15 0 [] []) 15 = vmExecute 1 (mkVM 15 0 [] []) 15 :=
  ⟨rfl, rfl, rfl⟩

/-- The observable result of the single abort path of `vm_abort` taken
for a zero divisor: diagnostic printed, both stacks empty, compile state
cleared, all nested source handles closed. -/
def abortedFrom (pre post : VM) : Prop :=
  post.errOut = pre.errOut ++ ["ABORT: division by zero"] ∧
  post.dstack = [] ∧ post.rstack = [] ∧ post.state = 0 ∧ post.inputDepth = 0

/-- C7: each division-family primitive (`/`, `mod`, `/mod`) with divisor
0 on top of the data stack takes the single abort path; in particular no
quotient or remainder is pushed (the data stack ends empty). -/
theorem c7_div_zero (vm : VM) (rest : List Int) (h : vm.dstack = 0 :: rest) :
    abortedFrom vm (execPrim .divP vm) ∧
    abortedFrom vm (execPrim .modP vm) ∧
    abortedFrom vm (execPrim .divmodP vm) := by
  obtain ⟨dc, lt, mem, hh, dsk, rsk, ip, w, st, bs, run, tb, tp, idp, out, err,
    pn, xl, xb, x0, xe, xd⟩ := vm
  dsimp only at h
  subst h
  exact ⟨⟨rfl, rfl, rfl, rfl, rfl⟩, ⟨rfl, rfl, rfl, rfl, rfl⟩,
    ⟨rfl, rfl, rfl, rfl, rfl⟩⟩

/-- Witness for `c7_div_zero`: dividing 6 by 0. -/
theorem c7_div_zero_witness :
    (execPrim .divP (mkVM 0 0 [] [0, 6])).dstack = [] ∧
    (execPrim .divP (mkVM 0 0 [] [0, 6])).errOut = ["ABORT: division by zero"] :=
  ⟨(c7_div_zero (mkVM 0 0 [] [0, 6]) [6] rfl).1.2.1,
   (c7_div_zero (mkVM 0 0 [] [0, 6]) [6] rfl).1.1⟩

/-- C10: `base` copies the base field of the VM to arena address 8 and
pushes 8, so the cell read there reflects the base at that moment; no
primitive other than `decimal` and `hex` changes the base field, and a
subsequent store to address 8 changes neither the result of number
parsing nor the digit produced by pictured-numeric output. -/
theorem c10_base_behavior (vm : VM) :
    ((execPrim .baseP vm).mem 8 = vm.base ∧
     (execPrim .baseP vm).dstack = 8 :: vm.dstack ∧
     (execPrim .baseP vm).base = vm.base) ∧
    (∀ p : PrimOp, p ≠ .decimalP → p ≠ .hexP →
      (execPrim p vm).base = vm.base) ∧
    ((execPrim .decimalP vm).base = 10 ∧ (execPrim .hexP vm).base = 16) ∧
    (∀ (v : Int) (s : String),
      vmTryNumber (execPrim .storeP { vm with dstack := 8 :: v :: vm.dstack }) s =
        vmTryNumber vm s) ∧
    (∀ v : Int,
      (execPrim .pnoDigit
        (execPrim .storeP { vm with dstack := 8 :: v :: vm.dstack })).pno =
        (execPrim .pnoDigit vm).pno ∧
      (execPrim .pnoDigit
        (execPrim .storeP { vm with dstack := 8 :: v :: vm.dstack })).dstack =
        (execPrim .pnoDigit vm).dstack) := by
  refine ⟨⟨by simp [execPrim, memStore, push], rfl, rfl⟩, ?_, ⟨rfl, rfl⟩,
    fun v s => rfl, fun v => ⟨rfl, rfl⟩⟩
  intro p h1 h2
  cases p <;>
    first
      | rfl
      | exact absurd rfl h1
      | exact absurd rfl h2
      | (simp only [execPrim]; split <;> rfl)

/-- Witness for `c10_base_behavior`: `+` does not change the base. -/
theorem c10_base_behavior_witness :
    (execPrim .addP (mkVM 0 0 [] [])).base = (mkVM 0 0 [] []).base :=
  (c10_base_behavior (mkVM 0 0 [] [])).2.1 .addP (by decide) (by decide)

/-- Evaluation of the `(exit)` runtime on any state. -/
theorem exitRt_eq (vm : VM) : execPrim .exitRt vm =
    { vm with rstack := vm.rstack.tail, ip := vm.rstack.headD 0 } := rfl

/-- Counterexample to C8 as stated: the primitive `>r` (XT 11 of
`dictEx`) can be passed to `execute`; doing so moves one cell from the
data stack to the return stack, so the return-stack depth on return to
the caller is one more than at the call site. -/
theorem c8_counterexample :
    (mkVM 11 0 [] [5]).rstack.length = 0 ∧
    (vmExecute 5 (mkVM 11 0 [] [5]) 11).rstack.length = 1 :=
  ⟨rfl, rfl⟩

/-- Primitives that touch neither the return stack, nor IP, nor the
running flag, nor the arena, nor the dictionary. -/
def neutralPrim : PrimOp → Bool
  | .addP | .subP | .mulP | .dupP | .dropP | .fetchP | .decimalP | .hexP
  | .dotP | .pnoDigit | .noopP => true
  | _ => false

theorem neutral_preserves (p : PrimOp) (h : neutralPrim p = true) (vm : VM) :
    (execPrim p vm).rstack = vm.rstack ∧ (execPrim p vm).ip = vm.ip ∧
    (execPrim p vm).running = vm.running ∧ (execPrim p vm).mem = vm.mem ∧
    (execPrim p vm).dict = vm.dict := by
  cases p <;> first | exact ⟨rfl, rfl, rfl, rfl, rfl⟩ | simp [neutralPrim] at h

/-- A straight-line compiled body at address `p`: the XTs of
return-stack-neutral primitives in sequence, terminated by the XT of the
`(exit)` runtime. -/
def straightBody (vm : VM) : Int → List PrimOp → Prop
  | p, [] => (entryOf vm (vm.mem p)).code = .prim .exitRt
  | p, op :: rest =>
      neutralPrim op = true ∧
      (entryOf vm (vm.mem p)).code = .prim op ∧
      straightBody vm (p + cellSize) rest

theorem straightBody_congr (vm vm' : VM) (hm : vm'.mem = vm.mem)
    (hd : vm'.dict = vm.dict) :
    ∀ (ps : List PrimOp) (p : Int), straightBody vm p ps → straightBody vm' p ps := by
  intro ps
  induction ps with
  | nil =>
    intro p h
    simpa only [straightBody, entryOf, hm, hd] using h
  | cons op rest ih =>
    intro p h
    obtain ⟨h1, h2, h3⟩ := h
    exact ⟨h1, by simpa only [entryOf, hm, hd] using h2, ih _ h3⟩

/-- Running a straight-line body: each neutral primitive leaves the
return stack alone, and the final `(exit)` pops the saved IP, ending the
loop with the return stack exactly as below the saved cell. -/
theorem straight_run (ps : List PrimOp) :
    ∀ (vm : VM) (r0 : Int) (rest : List Int),
      vm.running = true → vm.rstack = r0 :: rest →
      straightBody vm vm.ip ps →
      (vmRun (ps.length + 1) (rest.length + 1) vm).rstack = rest ∧
      (vmRun (ps.length + 1) (rest.length + 1) vm).running = true ∧
      (vmRun (ps.length + 1) (rest.length + 1) vm).ip = r0 := by
  induction ps with
  | nil =>
    intro vm r0 rest hrun hrs hb
    rw [show ([] : List PrimOp).length + 1 = 0 + 1 from rfl]
    rw [vmRun_succ_of_guard 0 _ _ hrun (by rw [hrs]; simp)]
    have hstep : vmStep vm = execPrim .exitRt (advanceIp vm) := by
      have h0 : vmStep vm =
          execHandler (advanceIp vm) (entryOf vm (vm.mem vm.ip)).code := rfl
      rw [h0, hb]
      rfl
    rw [hstep]
    refine ⟨?_, ?_, ?_⟩
    · show vm.rstack.tail = rest
      rw [hrs]
      rfl
    · show vm.running = true
      exact hrun
    · show vm.rstack.headD 0 = r0
      rw [hrs]
      rfl
  | cons op rest' ih =>
    intro vm r0 rest hrun hrs hb
    obtain ⟨hn, hcode, hb'⟩ := hb
    rw [show (op :: rest').length + 1 = (rest'.length + 1) + 1 by
      simp [List.length_cons]]
    rw [vmRun_succ_of_guard _ _ _ hrun (by rw [hrs]; simp)]
    have hstep : vmStep vm = execPrim op (advanceIp vm) := by
      have h0 : vmStep vm =
          execHandler (advanceIp vm) (entryOf vm (vm.mem vm.ip)).code := rfl
      rw [h0, hcode]
      rfl
    rw [hstep]
    obtain ⟨p1, p2, p3, p4, p5⟩ := neutral_preserves op hn (advanceIp vm)
    have hrun2 : (execPrim op (advanceIp vm)).running = true := by
      rw [p3]; exact hrun
    have hrs2 : (execPrim op (advanceIp vm)).rstack = r0 :: rest := by
      rw [p1]; exact hrs
    have hip2 : (execPrim op (advanceIp vm)).ip = vm.ip + cellSize := p2
    have hb2 : straightBody (execPrim op (advanceIp vm))
        (execPrim op (advanceIp vm)).ip rest' := by
      rw [hip2]
      exact straightBody_congr vm _ p4 p5 rest' _ hb'
    exact ih _ r0 rest hrun2 hrs2 hb2

/-- C8 (amended): not every XT preserves the return-stack depth across
`execute` — `c8_counterexample` shows `>r` raising it — but for every
colon-definition XT whose compiled body is a straight line of
return-stack-neutral primitives terminated by the `(exit)` runtime, the
inner interpreter returns to the caller with the return stack, and hence
its depth, exactly as at the call site. -/
theorem c8_execute_depth (ps : List PrimOp) (vm : VM) (xt : Int)
    (hcode : (entryOf vm xt).code = .docol) (hrun : vm.running = true)
    (hbody : straightBody vm (entryOf vm xt).param ps) :
    (vmExecute (ps.length + 1) vm xt).rstack = vm.rstack ∧
    (vmExecute (ps.length + 1) vm xt).running = true := by
  have h' : (entryOf { vm with w := xt } xt).code = .docol := hcode
  have hv : vmExecute (ps.length + 1) vm xt =
      vmRun (ps.length + 1) (vm.rstack.length + 1)
        { vm with w := xt, rstack := vm.ip :: vm.rstack,
                  ip := (entryOf vm xt).param } := by
    unfold vmExecute
    simp only []
    rw [h']
    rfl
  rw [hv]
  have hres := straight_run ps
    { vm with w := xt, rstack := vm.ip :: vm.rstack,
              ip := (entryOf vm xt).param }
    vm.ip vm.rstack hrun rfl
    (straightBody_congr vm
      { vm with w := xt, rstack := vm.ip :: vm.rstack,
                ip := (entryOf vm xt).param }
      rfl rfl ps (entryOf vm xt).param hbody)
  exact ⟨hres.1, hres.2.1⟩

/-- Witness for `c8_execute_depth`: the definition `g` (body `+ (exit)`)
run by the inner interpreter returns with the return stack unchanged. -/
theorem c8_execute_depth_witness :
    (vmExecute 2 (mkVM 0 0 [42] [1, 2]) 17).rstack = [42] :=
  (c8_execute_depth [.addP] (mkVM 0 0 [42] [1, 2]) 17 rfl rfl
    ⟨rfl, rfl, rfl⟩).1

/-- Any hit of the `vm_find` walk is a visible (non-HIDDEN) entry whose
stored name length equals the length of the token and whose name matches
the token case-insensitively. -/
theorem vmFindAux_spec (vm : VM) (nm : String) :
    ∀ (fuel : Nat) (i xt : Int), vmFindAux vm nm fuel i = some xt →
      (entryOf vm xt).flags &&& 0x40 = 0 ∧
      (entryOf vm xt).flags &&& 0x3F = nm.length ∧
      strncaseEq (entryOf vm xt).name nm nm.length = true := by
  intro fuel
  induction fuel with
  | zero => intro i xt h; simp [vmFindAux] at h
  | succ f ih =>
    intro i xt h
    unfold vmFindAux at h
    simp only [] at h
    split at h
    · simp at h
    · split at h
      · exact ih _ _ h
      · split at h
        · exact ih _ _ h
        · split at h
          · rename_i hhid hlen hcase
            cases h
            refine ⟨by omega, by omega, hcase⟩
          · exact ih _ _ h

theorem vmFind_spec (vm : VM) (nm : String) (xt : Int)
    (h : vmFind vm nm = some xt) :
    (entryOf vm xt).flags &&& 0x40 = 0 ∧
    (entryOf vm xt).flags &&& 0x3F = nm.length ∧
    strncaseEq (entryOf vm xt).name nm nm.length = true :=
  vmFindAux_spec vm nm _ _ _ h

/-- C2: one round of the outer interpreter on a running VM with a
nonempty token `wd` parsed off the TIB.  A token found in the dictionary
names a visible entry matching case-insensitively; it is compiled when
in compile state and not IMMEDIATE (bit 0x80), executed otherwise; a
token not found but parsing as a number is compiled as `(lit)` plus the
value in compile state or pushed in interpret state; any other token is
reported with `?` and aborts the line. -/
theorem c2_outer (tokFuel execFuel : Nat) (vm : VM) (wd : String) (vm1 : VM)
    (hrun : vm.running = true) (hw : vmWord vm = (wd, vm1))
    (hne : ¬ wd.length = 0) :
    (∀ xt, vmFind vm1 wd = some xt →
      ((entryOf vm1 xt).flags &&& 0x40 = 0 ∧
       (entryOf vm1 xt).flags &&& 0x3F = wd.length ∧
       strncaseEq (entryOf vm1 xt).name wd wd.length = true) ∧
      (vm1.state ≠ 0 ∧ (entryOf vm1 xt).flags &&& 0x80 = 0 →
        vmInterpretTib (tokFuel + 1) execFuel vm =
          vmInterpretTib tokFuel execFuel (vmCompileCell vm1 xt)) ∧
      (¬ (vm1.state ≠ 0 ∧ (entryOf vm1 xt).flags &&& 0x80 = 0) →
        vmInterpretTib (tokFuel + 1) execFuel vm =
          vmInterpretTib tokFuel execFuel (vmExecute execFuel vm1 xt))) ∧
    (∀ n, vmFind vm1 wd = none → vmTryNumber vm1 wd = some n →
      (vm1.state ≠ 0 →
        vmInterpretTib (tokFuel + 1) execFuel vm =
          vmInterpretTib tokFuel execFuel
            (vmCompileCell (vmCompileCell vm1 vm1.xtLit) n)) ∧
      (vm1.state = 0 →
        vmInterpretTib (tokFuel + 1) execFuel vm =
          vmInterpretTib tokFuel execFuel (push vm1 n))) ∧
    (vmFind vm1 wd = none → vmTryNumber vm1 wd = none →
      vmInterpretTib (tokFuel + 1) execFuel vm =
        vmAbort { vm1 with errOut := vm1.errOut ++ [wd ++ " ?"] }
          "undefined word") := by
  have hbase : vmInterpretTib (tokFuel + 1) execFuel vm =
      (match vmFind vm1 wd with
       | some xt =>
         if vm1.state ≠ 0 ∧ (entryOf vm1 xt).flags &&& 0x80 = 0 then
           vmInterpretTib tokFuel execFuel (vmCompileCell vm1 xt)
         else
           vmInterpretTib tokFuel execFuel (vmExecute execFuel vm1 xt)
       | none =>
         match vmTryNumber vm1 wd with
         | some n =>
           if vm1.state ≠ 0 then
             vmInterpretTib tokFuel execFuel
               (vmCompileCell (vmCompileCell vm1 vm1.xtLit) n)
           else
             vmInterpretTib tokFuel execFuel (push vm1 n)
         | none =>
           vmAbort { vm1 with errOut := vm1.errOut ++ [wd ++ " ?"] }
             "undefined word") := by
    conv_lhs => rw [vmInterpretTib]
    rw [hrun, hw]
    simp only []
    rw [if_pos trivial, if_neg hne]
  refine ⟨?_, ?_, ?_⟩
  · intro xt hfind
    refine ⟨vmFind_spec vm1 wd xt hfind, ?_, ?_⟩
    · intro hcomp
      rw [hbase, hfind]
      simp only []
      rw [if_pos hcomp]
    · intro hexec
      rw [hbase, hfind]
      simp only []
      rw [if_neg hexec]
  · intro n hfind hnum
    refine ⟨?_, ?_⟩
    · intro hst
      rw [hbase, hfind, hnum]
      simp only []
      rw [if_pos hst]
    · intro hst
      rw [hbase, hfind, hnum]
      simp only []
      rw [if_neg (by simp [hst])]
  · intro hfind hnum
    rw [hbase, hfind, hnum]

/-- Witness for `c2_outer`: interpreting the token `bye` on `dictEx`
finds the visible entry 12 and, in interpret state, executes it. -/
theorem c2_outer_witness :
    (entryOf { mkVM 0 0 [] [] with
        tib := ['b','y','e'], tibPos := 3 } 12).flags &&& 0x40 = 0 ∧
    vmInterpretTib 1 3 { mkVM 0 0 [] [] with tib := ['b','y','e'] } =
      vmInterpretTib 0 3
        (vmExecute 3 { mkVM 0 0 [] [] with
            tib := ['b','y','e'], tibPos := 3 } 12) :=
  ⟨((c2_outer 0 3 { mkVM 0 0 [] [] with tib := ['b','y','e'] } "bye"
      { mkVM 0 0 [] [] with tib := ['b','y','e'], tibPos := 3 }
      rfl rfl (by decide)).1 12 (by decide)).1.1,
   ((c2_outer 0 3 { mkVM 0 0 [] [] with tib := ['b','y','e'] } "bye"
      { mkVM 0 0 [] [] with tib := ['b','y','e'], tibPos := 3 }
      rfl rfl (by decide)).1 12 (by decide)).2.2 (by decide)⟩

theorem getD_concat (l : List DictEntry) (e d : DictEntry) :
    (l ++ [e]).getD l.length d = e := by
  induction l with
  | nil => rfl
  | cons a t ih => exact ih

theorem getD_set_self (l : List DictEntry) (i : Nat) (a d : DictEntry)
    (h : i < l.length) : (l.set i a).getD i d = a := by
  induction l generalizing i with
  | nil => simp at h
  | cons b t ih =>
    cases i with
    | zero => rfl
    | succ j => exact ih j (by simpa using h)

/-- The token produced by `vm_word` is at most `NAME_MAX_LEN = 31`
characters long. -/
theorem vmWord_len_le (vm : VM) : (vmWord vm).1.length ≤ 31 := by
  unfold vmWord
  simp only []
  show (String.mk _).length ≤ 31
  exact List.length_take_le 31 _

/-- Reading back the entry rewritten by `updateLatest`. -/
theorem entryOf_updateLatest (vm : VM) (f : DictEntry → DictEntry)
    (h : vm.latest.toNat < vm.dict.length) :
    entryOf (updateLatest vm f) vm.latest = f (entryOf vm vm.latest) := by
  unfold updateLatest entryOf
  exact getD_set_self _ _ _ _ h

/-- C3: `:` parses a name and appends a HIDDEN entry with the colon
handler and param = the cell-aligned HERE (which also becomes the new
HERE), entering compile state; `;` appends the exit XT at HERE, clears
the HIDDEN bit of the latest entry (the masking always clears bit 0x40)
and leaves compile state. -/
theorem c3_colon_semicolon (vm : VM) (nm : String) (vm1 : VM)
    (hw : vmWord vm = (nm, vm1)) (hne : ¬ nm.length = 0) :
    ((entryOf (vmColon vm) (vmColon vm).latest).code = .docol ∧
     (entryOf (vmColon vm) (vmColon vm).latest).name = nm ∧
     (entryOf (vmColon vm) (vmColon vm).latest).param = vmAlign vm.here ∧
     (entryOf (vmColon vm) (vmColon vm).latest).flags &&& 0x40 ≠ 0 ∧
     (vmColon vm).here = vmAlign vm.here ∧
     (vmColon vm).state = -1 ∧
     (vmColon vm).dict.length = vm.dict.length + 1) ∧
    (∀ vm2 : VM,
      (vmSemicolon vm2).mem vm2.here = vm2.xtExit ∧
      (vmSemicolon vm2).here = vm2.here + cellSize ∧
      (vmSemicolon vm2).state = 0 ∧
      (vm2.latest.toNat < vm2.dict.length →
        (entryOf (vmSemicolon vm2) vm2.latest).flags =
          (entryOf vm2 vm2.latest).flags &&& 0xBF)) ∧
    (∀ fl : Nat, fl < 256 → (fl &&& 0xBF) &&& 0x40 = 0) := by
  have hdict : vm1.dict = vm.dict := by
    have h0 : (vmWord vm).2.dict = vm.dict := rfl
    rw [hw] at h0
    exact h0
  have hhere : vm1.here = vm.here := by
    have h0 : (vmWord vm).2.here = vm.here := rfl
    rw [hw] at h0
    exact h0
  have hlen : nm.length ≤ 31 := by
    have h0 := vmWord_len_le vm
    rw [hw] at h0
    exact h0
  have hc : vmColon vm =
      { vm1 with
        dict := vm1.dict ++
          [⟨vm1.latest, nm.length ||| 0x40, nm, .docol, vmAlign vm1.here, -1⟩],
        latest := (vm1.dict.length : Int), here := vmAlign vm1.here,
        state := -1 } := by
    unfold vmColon
    rw [hw]
    simp only []
    rw [if_neg hne]
  have hent : entryOf (vmColon vm) (vmColon vm).latest =
      ⟨vm1.latest, nm.length ||| 0x40, nm, .docol, vmAlign vm1.here, -1⟩ := by
    rw [hc]
    show (vm1.dict ++ [_]).getD ((vm1.dict.length : Int)).toNat _ = _
    rw [Int.toNat_natCast]
    exact getD_concat _ _ _
  refine ⟨⟨?_, ?_, ?_, ?_, ?_, ?_, ?_⟩, ?_, by decide⟩
  · rw [hent]
  · rw [hent]
  · rw [hent, hhere]
  · rw [hent]
    show (nm.length ||| 0x40) &&& 0x40 ≠ 0
    have : ∀ l : Nat, l ≤ 31 → (l ||| 0x40) &&& 0x40 ≠ 0 := by decide
    exact this nm.length hlen
  · rw [hc, hhere]
  · rw [hc]
  · rw [hc]
    show (vm1.dict ++ [_]).length = vm.dict.length + 1
    simp [hdict]
  · intro vm2
    refine ⟨by simp [vmSemicolon, vmCompileCell, memStore, updateLatest], rfl,
      rfl, ?_⟩
    intro hlt
    have hlt' : (vmCompileCell vm2 vm2.xtExit).latest.toNat <
        (vmCompileCell vm2 vm2.xtExit).dict.length := hlt
    have h2 := entryOf_updateLatest (vmCompileCell vm2 vm2.xtExit)
      (fun e => { e with flags := e.flags &&& 0xBF }) hlt'
    exact congrArg DictEntry.flags h2

/-- Witness for `c3_colon_semicolon` defining a word named `q`. -/
theorem c3_colon_semicolon_witness :
    (vmColon { mkVM 0 0 [] [] with tib := ['q'] }).state = -1 ∧
    (entryOf (vmColon { mkVM 0 0 [] [] with tib := ['q'] })
        (vmColon { mkVM 0 0 [] [] with tib := ['q'] }).latest).flags &&&
      0x40 ≠ 0 :=
  ⟨(c3_colon_semicolon { mkVM 0 0 [] [] with tib := ['q'] } "q"
      { mkVM 0 0 [] [] with tib := ['q'], tibPos := 1 } rfl
      (by decide)).1.2.2.2.2.2.1,
   (c3_colon_semicolon { mkVM 0 0 [] [] with tib := ['q'] } "q"
      { mkVM 0 0 [] [] with tib := ['q'], tibPos := 1 } rfl
      (by decide)).1.2.2.2.1⟩

/-- C6: `create` appends a visible entry whose handler is the variable
handler and whose param is the aligned HERE at creation; executing any
such entry pushes exactly its body address.  The `(does>)` runtime
rewrites the most recently created entry: its handler becomes the
does-derived handler and its `does` field the current IP, then the
defining word exits (IP is popped off the return stack).  Executing a
does-derived entry afterwards pushes its body address, saves IP on the
return stack, and continues threaded execution at the does code. -/
theorem c6_create_does (vm : VM) (nm : String) (vm1 : VM)
    (hw : vmWord vm = (nm, vm1)) (hne : ¬ nm.length = 0) :
    ((entryOf (vmCreate vm) (vmCreate vm).latest).code = .dovar ∧
     (entryOf (vmCreate vm) (vmCreate vm).latest).name = nm ∧
     (entryOf (vmCreate vm) (vmCreate vm).latest).param = vmAlign vm.here ∧
     (entryOf (vmCreate vm) (vmCreate vm).latest).flags &&& 0x40 = 0 ∧
     (vmCreate vm).here = vmAlign vm.here) ∧
    (∀ (vm2 : VM) (xt : Int) (f : Nat), (entryOf vm2 xt).code = .dovar →
      (vmExecute f vm2 xt).dstack = (entryOf vm2 xt).param :: vm2.dstack ∧
      (vmExecute f vm2 xt).rstack = vm2.rstack) ∧
    (∀ vm3 : VM, vm3.latest.toNat < vm3.dict.length →
      (entryOf (execPrim .doesRt vm3) vm3.latest).code = .dodoes ∧
      (entryOf (execPrim .doesRt vm3) vm3.latest).does = vm3.ip ∧
      (entryOf (execPrim .doesRt vm3) vm3.latest).param =
        (entryOf vm3 vm3.latest).param ∧
      (execPrim .doesRt vm3).ip = vm3.rstack.headD 0 ∧
      (execPrim .doesRt vm3).rstack = vm3.rstack.tail) ∧
    (∀ (vm4 : VM) (xt : Int) (f : Nat), (entryOf vm4 xt).code = .dodoes →
      vmExecute f vm4 xt =
        vmRun f (vm4.rstack.length + 1)
          { vm4 with w := xt,
                     dstack := (entryOf vm4 xt).param :: vm4.dstack,
                     rstack := vm4.ip :: vm4.rstack,
                     ip := (entryOf vm4 xt).does }) := by
  have hhere : vm1.here = vm.here := by
    have h0 : (vmWord vm).2.here = vm.here := rfl
    rw [hw] at h0
    exact h0
  have hlen : nm.length ≤ 31 := by
    have h0 := vmWord_len_le vm
    rw [hw] at h0
    exact h0
  have hc : vmCreate vm =
      { vm1 with
        dict := vm1.dict ++
          [⟨vm1.latest, nm.length, nm, .dovar, vmAlign vm1.here, -1⟩],
        latest := (vm1.dict.length : Int), here := vmAlign vm1.here } := by
    unfold vmCreate
    rw [hw]
    simp only []
    rw [if_neg hne]
  have hent : entryOf (vmCreate vm) (vmCreate vm).latest =
      ⟨vm1.latest, nm.length, nm, .dovar, vmAlign vm1.here, -1⟩ := by
    rw [hc]
    show (vm1.dict ++ [_]).getD ((vm1.dict.length : Int)).toNat _ = _
    rw [Int.toNat_natCast]
    exact getD_concat _ _ _
  refine ⟨⟨?_, ?_, ?_, ?_, ?_⟩, ?_, ?_, ?_⟩
  · rw [hent]
  · rw [hent]
  · rw [hent, hhere]
  · rw [hent]
    show nm.length &&& 0x40 = 0
    have : ∀ l : Nat, l ≤ 31 → l &&& 0x40 = 0 := by decide
    exact this nm.length hlen
  · rw [hc, hhere]
  · intro vm2 xt f h
    have h' : (entryOf { vm2 with w := xt } xt).code = .dovar := h
    unfold vmExecute
    simp only []
    rw [h']
    exact ⟨rfl, rfl⟩
  · intro vm3 hlt
    have h2 : entryOf (execPrim .doesRt vm3) vm3.latest =
        { entryOf vm3 vm3.latest with code := .dodoes, does := vm3.ip } :=
      entryOf_updateLatest vm3
        (fun e => { e with code := .dodoes, does := vm3.ip }) hlt
    exact ⟨by rw [h2], by rw [h2], by rw [h2], rfl, rfl⟩
  · intro vm4 xt f h
    have h' : (entryOf { vm4 with w := xt } xt).code = .dodoes := h
    unfold vmExecute
    simp only []
    rw [h']
    rfl

/-- Witness for `c6_create_does`: executing the entry created for `v`
pushes its body address. -/
theorem c6_create_does_witness :
    (vmExecute 1 (vmCreate { mkVM 0 0 [] [] with tib := ['v'] }) 18).dstack =
      (entryOf (vmCreate { mkVM 0 0 [] [] with tib := ['v'] }) 18).param ::
        (vmCreate { mkVM 0 0 [] [] with tib := ['v'] }).dstack :=
  ((c6_create_does { mkVM 0 0 [] [] with tib := ['v'] } "v"
      { mkVM 0 0 [] [] with tib := ['v'], tibPos := 1 } rfl (by decide)).2.1
    (vmCreate { mkVM 0 0 [] [] with tib := ['v'] }) 18 1 (by decide)).1

/-- C9: the body of `t` (dict index 16) compiled at arena 500 is
`(0branch) 540 (lit) 1 . (exit)`: a `(0branch)` token followed by the
inline absolute target 540 (the interpreter, last conjunct, jumps to
arena offset 540 when the popped flag is zero).  The generated C
function instead emits `goto L1056` — the label number is computed as
the position after the inline cell (516) plus the stored target (540),
treating the absolute target as a relative offset — it does not contain
the `goto L540` the target position calls for, and no emitted line
contains a `:` at all, so no label is ever defined and every emitted
`goto` targets an undefined label: the generated source is not valid C. -/
theorem c9_codegen_bug :
    codegenWord (mkVM 16 0 [] []) 20 16 =
      ["static void word_t(void) \x7b\n",
       "    if (POP() == 0) goto L1056;\n",
       "    PUSH(1);\n",
       "    f_dot();\n",
       "\x7d\n\n"] ∧
    ¬ ("    if (POP() == 0) goto L540;\n" ∈ codegenWord (mkVM 16 0 [] []) 20 16) ∧
    (codegenWord (mkVM 16 0 [] []) 20 16).all
      (fun l => !(l.data.contains ':')) = true ∧
    (execPrim .zbranch (mkVM 16 508 [] [0])).ip = 540 := by
  refine ⟨by decide, by decide, by decide, by decide⟩
